import Mathlib

/-!
Verification of the libcalico-go IPAM block reader/writer
(`lib/client/ipam_block_reader_writer.go`): the block-enumeration
generators, the block-affinity claim protocol and the release protocol,
shallowly embedded over an explicit key/value datastore state.

IP addresses are modelled as natural numbers (the integer value of the
address; `incrementIP` in the source adds an integer offset via big-int
arithmetic, with no wraparound in range).  A block CIDR is identified by
its base address, the block prefix mask being fixed per IP version.
-/

/-- Value of a Block record (`model.AllocationBlock`): its CIDR (base
address), optional host affinity, the strict-affinity flag and the
allocation state.  Modelled from the spec: the allocation state (the set
of leased addresses, from `ipam_block.go`, not under src/) is used only
to decide emptiness. -/
structure AllocationBlock where
  cidr : Nat
  hostAffinity : Option String
  strictAffinity : Bool
  leased : List Nat
deriving DecidableEq, Repr

/-- Emptiness check of a block (`b.empty()`); modelled from the spec: a
block is empty iff no addresses are leased out of it. -/
def blockEmpty (b : AllocationBlock) : Bool := b.leased.isEmpty

/-- Error taxonomy of the backend datastore together with the IPAM level
errors produced by the reader/writer (`noFreeBlocksError`,
`affinityClaimedError`, the "Max retries hit" error). -/
inductive IpamError where
  | resourceDoesNotExist
  | resourceAlreadyExists
  | updateConflict
  | noFreeBlocks
  | affinityClaimed (block : AllocationBlock)
  | maxRetriesHit
deriving DecidableEq, Repr

/-- State of the backend datastore restricted to the records the
reader/writer touches: Block records keyed by block CIDR and Block
Affinity records keyed by (host, CIDR).  The association lists represent
finite maps; every insertion goes through create-if-absent, so keys are
in practice unique, and removal removes every pair with the key. -/
structure Datastore where
  blocks : List (Nat × AllocationBlock)
  affinities : List (String × Nat)
deriving DecidableEq, Repr

/-- Lookup of a Block record by CIDR. -/
def aget (k : Nat) : List (Nat × AllocationBlock) → Option AllocationBlock
  | [] => none
  | (k2, v) :: rest => if k2 = k then some v else aget k rest

/-- Replacement of the value stored at a CIDR (the state effect of a
compare-and-swap Update whose version check passed). -/
def aset (k : Nat) (v : AllocationBlock) :
    List (Nat × AllocationBlock) → List (Nat × AllocationBlock)
  | [] => []
  | (k2, w) :: rest =>
    if k2 = k then (k, v) :: aset k v rest else (k2, w) :: aset k v rest

/-- Removal of the Block record stored at a CIDR. -/
def aremove (k : Nat) :
    List (Nat × AllocationBlock) → List (Nat × AllocationBlock)
  | [] => []
  | (k2, w) :: rest =>
    if k2 = k then aremove k rest else (k2, w) :: aremove k rest

/-- Presence of the Block Affinity record keyed (host, CIDR). -/
def affHas (h : String) (c : Nat) : List (String × Nat) → Bool
  | [] => false
  | (h2, c2) :: rest => if h2 = h ∧ c2 = c then true else affHas h c rest

/-- Removal of the Block Affinity record keyed (host, CIDR). -/
def affRemove (h : String) (c : Nat) : List (String × Nat) → List (String × Nat)
  | [] => []
  | (h2, c2) :: rest =>
    if h2 = h ∧ c2 = c then affRemove h c rest else (h2, c2) :: affRemove h c rest

/-- Backend Get of a Block record: not-found error when absent. -/
def backendGetBlock (c : Nat) (s : Datastore) : Except IpamError AllocationBlock :=
  match aget c s.blocks with
  | some b => .ok b
  | none => .error .resourceDoesNotExist

/-- Backend Create of a Block record: atomic create-if-absent,
already-exists error when the key is occupied. -/
def backendCreateBlock (c : Nat) (b : AllocationBlock) (s : Datastore) :
    Except IpamError Datastore :=
  match aget c s.blocks with
  | some _ => .error .resourceAlreadyExists
  | none => .ok { s with blocks := (c, b) :: s.blocks }

/-- Backend Delete of a Block record: not-found error when absent. -/
def backendDeleteBlock (c : Nat) (s : Datastore) : Except IpamError Datastore :=
  match aget c s.blocks with
  | some _ => .ok { s with blocks := aremove c s.blocks }
  | none => .error .resourceDoesNotExist

/-- Backend Update of a Block record whose compare-and-swap version
check passed (the conflict outcome is decided by the caller's conflict
schedule, see `releaseBlockAffinity`). -/
def backendUpdateBlock (c : Nat) (b : AllocationBlock) (s : Datastore) : Datastore :=
  { s with blocks := aset c b s.blocks }

/-- Backend Create of a Block Affinity record (the value,
`model.BlockAffinity{}`, is an empty struct, so only the key is kept). -/
def backendCreateAffinity (h : String) (c : Nat) (s : Datastore) :
    Except IpamError Datastore :=
  if affHas h c s.affinities then .error .resourceAlreadyExists
  else .ok { s with affinities := (h, c) :: s.affinities }

/-- Backend Delete of a Block Affinity record: not-found error when
absent. -/
def backendDeleteAffinity (h : String) (c : Nat) (s : Datastore) :
    Except IpamError Datastore :=
  if affHas h c s.affinities then .ok { s with affinities := affRemove h c s.affinities }
  else .error .resourceDoesNotExist

/-- A configured address pool, reduced to what the generators consume:
the base (network) address of its CIDR and the number of host bits, so
the pool spans addresses [base, base + 2 ^ hostBits). -/
structure IPPool where
  base : Nat
  hostBits : Nat
deriving DecidableEq, Repr

/-- Number of addresses in a pool (2 to the number of host bits; in the
source `ones, size := pool.Mask.Size()` gives hostBits = size - ones). -/
def IPPool.size (p : IPPool) : Nat := 2 ^ p.hostBits

/-- Pool membership of an address (`pool.Contains`): the pool CIDR,
whose base is aligned, contains exactly [base, base + size). -/
def IPPool.containsAddr (p : IPPool) (x : Nat) : Bool :=
  p.base ≤ x && x < p.base + p.size

/-- Address arithmetic helper (`incrementIP`): big-int addition of an
offset to an address. -/
def incrementIP (ip inc : Nat) : Nat := ip + inc

/-- One call of the closure returned by `blockGenerator(pool)`: the
closure state is the next candidate base `ip`; the body saves
`returnIP := ip`, advances `ip` by one block size, and yields the block
at `returnIP` if the pool contains the advanced `ip`, else the nil
sentinel.  The block size `B` is the package constant `blockSize`
(64 addresses), kept as a parameter. -/
def blockGenNext (pool : IPPool) (B : Nat) (ip : Nat) : Option Nat × Nat :=
  let returnIP := ip
  let ip2 := incrementIP ip B
  if pool.containsAddr ip2 then (some returnIP, ip2) else (none, ip2)

/-- Values yielded by repeatedly calling the sequential generator from
state `ip`, stopping at the nil sentinel; `fuel` bounds the number of
calls (for 0 < B at most (size - 1) / B values are yielded, so fuel
`pool.size` suffices to collect the entire sequence). -/
def blockGenCollect (pool : IPPool) (B : Nat) : Nat → Nat → List Nat
  | 0, _ => []
  | n + 1, ip =>
    match blockGenNext pool B ip with
    | (some c, ip2) => c :: blockGenCollect pool B n ip2
    | (none, _) => []

/-- Full sequence of block CIDRs yielded by `blockGenerator(pool)`
before its nil sentinel, starting from the closure's initial state
`ip = pool.IP`. -/
def blockGenList (pool : IPPool) (B : Nat) : List Nat :=
  blockGenCollect pool B pool.size pool.base

/-- Number of blocks in a pool as computed by `randomBlockGenerator`:
`int(math.Exp2(float64(prefixLen))) / blockSize`. -/
def numBlocks (pool : IPPool) (B : Nat) : Nat := pool.size / B

/-- One call of the closure returned by `randomBlockGenerator(pool)`:
the state is the remaining slice of block indexes `idxs` (initially a
random permutation of [0, numBlocks) from `rand.Perm`, kept here as a
parameter); the body pops the last index off the slice and yields the
block at `base + index * blockSize`, or the nil sentinel when the slice
is exhausted. -/
def randomBlockNext (pool : IPPool) (B : Nat) (idxs : List Nat) :
    Option Nat × List Nat :=
  match idxs.getLast? with
  | some i => (some (incrementIP pool.base (i * B)), idxs.dropLast)
  | none => (none, idxs)

/-- Values yielded by repeatedly calling the randomized generator,
stopping at the nil sentinel, with fuel bounding the number of calls. -/
def randomBlockCollect (pool : IPPool) (B : Nat) : Nat → List Nat → List Nat
  | 0, _ => []
  | n + 1, idxs =>
    match randomBlockNext pool B idxs with
    | (some c, idxs2) => c :: randomBlockCollect pool B n idxs2
    | (none, _) => []

/-- Full sequence of block CIDRs yielded by `randomBlockGenerator(pool)`
running on the shuffled index slice `idxs` (its length is exactly the
number of calls that yield a value). -/
def randomBlockList (pool : IPPool) (B : Nat) (idxs : List Nat) : List Nat :=
  randomBlockCollect pool B idxs.length idxs

/-- C1: the claim says the sequential generator over a pool of N
addresses with block size B yields exactly floor(N/B) blocks.  The code
advances the closure state before the containment check and tests the
advanced address, so the last block of every pool is never yielded: over
the pool 10.0.0.0/24 (base 167772160, N = 256 addresses) with block size
64 it yields only the 3 blocks 10.0.0.0/26, 10.0.0.64/26, 10.0.0.128/26
and never 10.0.0.192/26, although that block's addresses all lie in the
pool, while floor(N/B) = 4. -/
theorem blockGenerator_omits_last_block :
  blockGenList ⟨167772160, 8⟩ 64 = [167772160, 167772224, 167772288]
  ∧ (blockGenList ⟨167772160, 8⟩ 64).length = 3
  ∧ IPPool.size ⟨167772160, 8⟩ / 64 = 4
  ∧ IPPool.containsAddr ⟨167772160, 8⟩ (167772160 + 192) = true
  ∧ IPPool.containsAddr ⟨167772160, 8⟩ (167772160 + 255) = true
  ∧ (167772160 + 192) ∉ blockGenList ⟨167772160, 8⟩ 64 := by
  refine ⟨by decide, by decide, by decide, by decide, by decide, by decide⟩

/-- C3: the claim says the randomized generator yields exactly the same
set of CIDRs as the sequential generator.  Over the pool 10.0.0.0/24
with block size 64, the randomized generator (run on the shuffled index
slice [0, 1, 2, 3], a permutation of range numBlocks = range 4) yields
all 4 blocks of the pool, including 10.0.0.192/26 which the sequential
generator never yields, so the two sets differ. -/
theorem randomBlockGenerator_set_differs :
  List.Perm [0, 1, 2, 3] (List.range (numBlocks ⟨167772160, 8⟩ 64))
  ∧ randomBlockList ⟨167772160, 8⟩ 64 [0, 1, 2, 3]
      = [167772352, 167772288, 167772224, 167772160]
  ∧ (167772160 + 192) ∈ randomBlockList ⟨167772160, 8⟩ 64 [0, 1, 2, 3]
  ∧ (167772160 + 192) ∉ blockGenList ⟨167772160, 8⟩ 64
  ∧ (randomBlockList ⟨167772160, 8⟩ 64 [0, 1, 2, 3]).length = 4
  ∧ (blockGenList ⟨167772160, 8⟩ 64).length = 3 := by
  refine ⟨by decide, by decide, by decide, by decide, by decide, by decide⟩

/-- Handler of the already-exists outcome of the Block Create inside
`claimBlockAffinity` (the body of the `ErrorResourceAlreadyExists`
branch, lines 149-176): re-read the existing Block; if its host
affinity equals this host treat as success; otherwise delete the
speculatively created Affinity record keyed (host, b.CIDR) — a failure
of that delete is returned as the call's error — and fail with
`affinityClaimedError` carrying the winning block. -/
def claimExistsHandler (subnet : Nat) (host : String) (s : Datastore) :
    Option IpamError × Datastore :=
  match backendGetBlock subnet s with
  | .error e => (some e, s)
  | .ok b =>
    if b.hostAffinity = some host then (none, s)
    else
      match backendDeleteAffinity host b.cidr s with
      | .error e => (some e, s)
      | .ok s2 => (some (.affinityClaimed b), s2)

/-- Claim of block affinity (`claimBlockAffinity(subnet, host, config)`):
best-effort Create of the Affinity record for (host, subnet) (the
source discards this error by shadowing `err`), then Create of a fresh
Block record for `subnet` carrying `HostAffinity = host` and the
config's strict-affinity flag; success of that Create is success of the
claim, already-exists is resolved by `claimExistsHandler`, any other
Create error is returned unchanged.  Returns the Go `error` result
(none = nil = success) and the resulting datastore. -/
def claimBlockAffinity (subnet : Nat) (host : String) (strict : Bool)
    (s : Datastore) : Option IpamError × Datastore :=
  let s1 := match backendCreateAffinity host subnet s with
    | .ok s2 => s2
    | .error _ => s
  let block : AllocationBlock :=
    { cidr := subnet, hostAffinity := some host, strictAffinity := strict,
      leased := [] }
  match backendCreateBlock subnet block s1 with
  | .ok s2 => (none, s2)
  | .error e =>
    if e = .resourceAlreadyExists then claimExistsHandler subnet host s1
    else (some e, s1)

/-- Inner loop of `claimNewAffineBlock` over the candidate block CIDRs
of one pool (the yields of `blockGenerator(pool)`): Get each candidate's
Block record; if found, skip to the next candidate; on not-found,
attempt `claimBlockAffinity` and return `(subnet, err)` immediately; on
any other Get error return `(nil, err)`.  Returns `none` when the
candidate list is exhausted without an early return. -/
def scanCandidates (host : String) (strict : Bool)
    (s : Datastore) : List Nat → Option ((Option Nat × Option IpamError) × Datastore)
  | [] => none
  | c :: rest =>
    match backendGetBlock c s with
    | .ok _ => scanCandidates host strict s rest
    | .error e =>
      if e = .resourceDoesNotExist then
        some ((some c, (claimBlockAffinity c host strict s).1),
          (claimBlockAffinity c host strict s).2)
      else some ((none, some e), s)

/-- Scan loop of `claimNewAffineBlock` (lines 101-126) over the resolved
pool list: for each pool, in order, iterate the sequential generator's
candidates via `scanCandidates`; the first early return is the result of
the whole call, and exhausting every candidate of every pool fails with
`noFreeBlocksError`.  Pool resolution and validation (lines 62-99, which
only read the pool catalog) are taken as the already-resolved `pools`
input; the block size `B` is the package constant `blockSize`. -/
def claimNewAffineBlock (host : String) (strict : Bool) (B : Nat)
    (pools : List IPPool) (s : Datastore) :
    (Option Nat × Option IpamError) × Datastore :=
  match pools with
  | [] => ((none, some .noFreeBlocks), s)
  | pool :: rest =>
    match scanCandidates host strict s (blockGenList pool B) with
    | some r => r
    | none => claimNewAffineBlock host strict B rest s

/-- Tail of one successful iteration of `releaseBlockAffinity` (lines
236-248): delete the Affinity record keyed (host, b.CIDR); a not-found
outcome is treated as already satisfied and any other delete error is
only logged — the call returns nil either way. -/
def releaseDeleteAffinity (host : String) (b : AllocationBlock)
    (s : Datastore) : Option IpamError × Datastore :=
  match backendDeleteAffinity host b.cidr s with
  | .ok s2 => (none, s2)
  | .error _ => (none, s)

/-- Release of block affinity (`releaseBlockAffinity(host, blockCIDR)`):
a read-modify-write loop bounded by the retry constant
`ipamEtcdRetries` (not under src/, kept as the `fuel` parameter, per the
spec a fixed retry count).  Each iteration: Get the Block (errors
propagate); fail with `affinityClaimedError` if its affinity is set to a
different host; if the block is empty, Delete it (not-found tolerated),
else clear its affinity and Update it by compare-and-swap — `sched`
supplies the outcome of each CAS, `true` meaning the version check
failed (`ErrorResourceUpdateConflict`, a concurrent mutator bumped the
version between the Get and the Update) which restarts the loop; then
delete the paired Affinity record and return nil.  Exhausted fuel
returns the "Max retries hit" error. -/
def releaseBlockAffinity (host : String) (blockCIDR : Nat) :
    Nat → List Bool → Datastore → Option IpamError × Datastore
  | 0, _, s => (some .maxRetriesHit, s)
  | n + 1, sched, s =>
    match backendGetBlock blockCIDR s with
    | .error e => (some e, s)
    | .ok b =>
      if b.hostAffinity ≠ none ∧ b.hostAffinity ≠ some host then
        (some (.affinityClaimed b), s)
      else if blockEmpty b then
        match backendDeleteBlock b.cidr s with
        | .ok s2 => releaseDeleteAffinity host b s2
        | .error e =>
          if e = .resourceDoesNotExist then releaseDeleteAffinity host b s
          else (some e, s)
      else
        let b2 : AllocationBlock := { b with hostAffinity := none }
        match sched with
        | true :: rest => releaseBlockAffinity host blockCIDR n rest s
        | _ => releaseDeleteAffinity host b (backendUpdateBlock blockCIDR b2 s)

/-- Lookup after a cons with the same key. -/
theorem aget_cons_self (k : Nat) (v : AllocationBlock) (l : List (Nat × AllocationBlock)) :
    aget k ((k, v) :: l) = some v := by
  simp [aget]

/-- Lookup after a cons with a different key. -/
theorem aget_cons_ne (k k2 : Nat) (v : AllocationBlock) (l : List (Nat × AllocationBlock))
    (h : k2 ≠ k) : aget k ((k2, v) :: l) = aget k l := by
  simp [aget, h]

/-- Lookup after removing the same key. -/
theorem aget_aremove_self (k : Nat) (l : List (Nat × AllocationBlock)) :
    aget k (aremove k l) = none := by
  induction l with
  | nil => simp [aget, aremove]
  | cons p rest ih =>
    obtain ⟨k2, v⟩ := p
    by_cases hk : k2 = k
    · simpa [aremove, hk] using ih
    · simpa [aremove, hk, aget] using ih

/-- Lookup after removing a different key. -/
theorem aget_aremove_ne (k k2 : Nat) (l : List (Nat × AllocationBlock)) (h : k ≠ k2) :
    aget k (aremove k2 l) = aget k l := by
  induction l with
  | nil => simp [aremove]
  | cons p rest ih =>
    obtain ⟨k3, v⟩ := p
    by_cases hk : k3 = k2 <;> by_cases hk3 : k3 = k
    · exact absurd (hk3.symm.trans hk) h
    · have hne : ¬(k2 = k) := fun hh => hk3 (hk.trans hh)
      simp [aremove, hk, aget, hk3, hne, ih]
    · simp [aremove, hk, aget, hk3, h, ih]
    · simp [aremove, hk, aget, hk3, ih]

/-- Lookup after a compare-and-swap style replacement at the same key. -/
theorem aget_aset_self (k : Nat) (v : AllocationBlock) (l : List (Nat × AllocationBlock)) :
    aget k (aset k v l) = (aget k l).map (fun _ => v) := by
  induction l with
  | nil => simp [aget, aset]
  | cons p rest ih =>
    obtain ⟨k2, w⟩ := p
    by_cases hk : k2 = k
    · subst hk
      simp [aset, aget]
    · simp [aset, hk, aget, ih]

/-- Lookup after a replacement at a different key. -/
theorem aget_aset_ne (k k2 : Nat) (v : AllocationBlock) (l : List (Nat × AllocationBlock))
    (h : k ≠ k2) : aget k (aset k2 v l) = aget k l := by
  induction l with
  | nil => simp [aget, aset]
  | cons p rest ih =>
    obtain ⟨k3, w⟩ := p
    by_cases hk : k3 = k2 <;> by_cases hk3 : k3 = k
    · exact absurd (hk3.symm.trans hk) h
    · have hne : ¬(k2 = k) := fun hh => hk3 (hk.trans hh)
      simp [aset, hk, aget, hk3, hne, ih]
    · simp [aset, hk, aget, hk3, h, ih]
    · simp [aset, hk, aget, hk3, ih]

/-- Affinity presence after removing the same key. -/
theorem affHas_affRemove_self (h : String) (c : Nat) (l : List (String × Nat)) :
    affHas h c (affRemove h c l) = false := by
  induction l with
  | nil => simp [affHas, affRemove]
  | cons p rest ih =>
    obtain ⟨h2, c2⟩ := p
    by_cases hp : h2 = h ∧ c2 = c
    · simpa [affRemove, hp] using ih
    · simpa [affRemove, hp, affHas] using ih

/-- Removing an absent affinity key leaves the list unchanged. -/
theorem affRemove_of_not_has (h : String) (c : Nat) (l : List (String × Nat))
    (hn : affHas h c l = false) : affRemove h c l = l := by
  induction l with
  | nil => simp [affRemove]
  | cons p rest ih =>
    obtain ⟨h2, c2⟩ := p
    by_cases hp : h2 = h ∧ c2 = c
    · simp [affHas, hp] at hn
    · simp [affHas, hp] at hn
      simp [affRemove, hp, ih hn]

/-- Specification of the inner candidate scan of `claimNewAffineBlock`:
it returns the result of claiming the first candidate whose Block record
is absent, and falls through exactly when every candidate is taken. -/
theorem scanCandidates_spec (h : String) (st : Bool) (s : Datastore) (cands : List Nat) :
    scanCandidates h st s cands =
      match cands.find? (fun c => (aget c s.blocks).isNone) with
      | none => none
      | some c =>
        some ((some c, (claimBlockAffinity c h st s).1), (claimBlockAffinity c h st s).2) := by
  induction cands with
  | nil => simp [scanCandidates]
  | cons c rest ih =>
    rw [List.find?_cons]
    cases hc : aget c s.blocks with
    | some b => simpa [scanCandidates, backendGetBlock, hc] using ih
    | none => simp [scanCandidates, backendGetBlock, hc]

/-- C4: `claimNewAffineBlock` scans the resolved pools in order through
the sequential generator, skipping every candidate whose Block record
the Get finds; at the first candidate reported not-found it invokes
`claimBlockAffinity` and returns that sub-protocol's result immediately
(success or failure), and if every candidate of every pool is found
taken it fails with the distinguished no-free-blocks error. -/
theorem claimNewAffineBlock_scan_spec (h : String) (st : Bool) (B : Nat)
    (pools : List IPPool) (s : Datastore) :
    claimNewAffineBlock h st B pools s =
      match (pools.flatMap (fun p => blockGenList p B)).find?
          (fun c => (aget c s.blocks).isNone) with
      | none => ((none, some .noFreeBlocks), s)
      | some c =>
        ((some c, (claimBlockAffinity c h st s).1), (claimBlockAffinity c h st s).2) := by
  induction pools with
  | nil => simp [claimNewAffineBlock]
  | cons pool rest ih =>
    rw [List.flatMap_cons, List.find?_append]
    cases hfind : (blockGenList pool B).find? (fun c => (aget c s.blocks).isNone) with
    | some c =>
      simp only [claimNewAffineBlock, scanCandidates_spec, hfind, Option.or]
    | none =>
      simp only [claimNewAffineBlock, scanCandidates_spec, hfind, Option.or]
      exact ih

/-- Outcome of `claimBlockAffinity` when the Block record already exists
with this host's affinity: success, with only the best-effort Affinity
record creation of step 1 touching the store. -/
theorem claimBlockAffinity_same_host (s : Datastore) (c : Nat) (h : String) (st : Bool)
    (b : AllocationBlock) (hb : aget c s.blocks = some b)
    (hbh : b.hostAffinity = some h) :
    claimBlockAffinity c h st s =
      (none, { s with affinities :=
        (if affHas h c s.affinities then s.affinities else (h, c) :: s.affinities) }) := by
  by_cases haff : affHas h c s.affinities
  · simp [claimBlockAffinity, backendCreateAffinity, haff, backendCreateBlock, hb,
      claimExistsHandler, backendGetBlock, hbh]
  · simp [claimBlockAffinity, backendCreateAffinity, haff, backendCreateBlock, hb,
      claimExistsHandler, backendGetBlock, hbh]

/-- Outcome of `claimBlockAffinity` on a CIDR with no Block record:
the Affinity record is created (if absent) and the fresh Block record is
created carrying this host's affinity; the call succeeds. -/
theorem claimBlockAffinity_fresh (s : Datastore) (c : Nat) (h : String) (st : Bool)
    (hnone : aget c s.blocks = none) :
    claimBlockAffinity c h st s =
      (none, { blocks := (c, ⟨c, some h, st, []⟩) :: s.blocks,
               affinities :=
        (if affHas h c s.affinities then s.affinities else (h, c) :: s.affinities) }) := by
  by_cases haff : affHas h c s.affinities
  · simp [claimBlockAffinity, backendCreateAffinity, haff, backendCreateBlock, hnone]
  · simp [claimBlockAffinity, backendCreateAffinity, haff, backendCreateBlock, hnone]

/-- C5: when the Block Create inside `claimBlockAffinity` fails with
already-exists and the re-read Block's host affinity equals the claiming
host, the call succeeds without touching the Block records (no second
Block record, no affinity change); consequently claiming the same
(cidr, host) twice in sequence succeeds both times and the second call
changes nothing at all. -/
theorem claimBlockAffinity_idempotent (s : Datastore) (c : Nat) (h : String) (st : Bool) :
    (∀ b, aget c s.blocks = some b → b.hostAffinity = some h →
        (claimBlockAffinity c h st s).1 = none
      ∧ ((claimBlockAffinity c h st s).2).blocks = s.blocks)
    ∧ (aget c s.blocks = none →
        (claimBlockAffinity c h st s).1 = none
      ∧ (claimBlockAffinity c h st ((claimBlockAffinity c h st s).2)).1 = none
      ∧ (claimBlockAffinity c h st ((claimBlockAffinity c h st s).2)).2
          = (claimBlockAffinity c h st s).2) := by
  constructor
  · intro b hb hbh
    rw [claimBlockAffinity_same_host s c h st b hb hbh]
    constructor <;> rfl
  · intro hnone
    rw [claimBlockAffinity_fresh s c h st hnone]
    refine ⟨rfl, ?_, ?_⟩
    · rw [claimBlockAffinity_same_host _ c h st ⟨c, some h, st, []⟩ (by simp [aget]) rfl]
    · rw [claimBlockAffinity_same_host _ c h st ⟨c, some h, st, []⟩ (by simp [aget]) rfl]
      by_cases haff : affHas h c s.affinities <;> simp [haff, affHas]

/-- Witness for C5 at a concrete input: the empty datastore, CIDR 0 and
host "calico". -/
theorem claimBlockAffinity_idempotent_witness :
    aget 0 (Datastore.mk [] []).blocks = none
    ∧ (claimBlockAffinity 0 "calico" false ⟨[], []⟩).1 = none
    ∧ (claimBlockAffinity 0 "calico" false
        ((claimBlockAffinity 0 "calico" false ⟨[], []⟩).2)).1 = none
    ∧ (claimBlockAffinity 0 "calico" false
        ((claimBlockAffinity 0 "calico" false ⟨[], []⟩).2)).2
        = (claimBlockAffinity 0 "calico" false ⟨[], []⟩).2 := by
  have hm := (claimBlockAffinity_idempotent ⟨[], []⟩ 0 "calico" false).2 (by decide)
  exact ⟨by decide, hm.1, hm.2.1, hm.2.2⟩

/-- C6: when the Block Create inside `claimBlockAffinity` fails with
already-exists and the re-read Block's affinity is absent or names a
different host, the handler deletes the speculatively created Affinity
record for (host, b.CIDR) and fails with the affinity-claimed error
carrying the winning block's data; if that delete itself fails (the
record is gone) the delete's error is what the call returns. -/
theorem claimExistsHandler_foreign (s : Datastore) (c : Nat) (h : String)
    (b : AllocationBlock) (hb : aget c s.blocks = some b)
    (hforeign : b.hostAffinity ≠ some h) :
    (affHas h b.cidr s.affinities = true →
      claimExistsHandler c h s =
        (some (.affinityClaimed b),
         { s with affinities := affRemove h b.cidr s.affinities }))
    ∧ (affHas h b.cidr s.affinities = false →
      claimExistsHandler c h s = (some .resourceDoesNotExist, s)) := by
  constructor
  · intro haff
    simp [claimExistsHandler, backendGetBlock, hb, hforeign, backendDeleteAffinity, haff]
  · intro haff
    simp [claimExistsHandler, backendGetBlock, hb, hforeign, backendDeleteAffinity, haff]

/-- Witness for C6 at concrete inputs: a Block for CIDR 4 affined to
"other"; with the Affinity record ("me", 4) present the handler removes
it and reports the affinity-claimed error, and with it absent the
handler reports the delete's not-found error. -/
theorem claimExistsHandler_foreign_witness :
    aget 4 (Datastore.mk [(4, ⟨4, some "other", false, []⟩)] [("me", 4)]).blocks
      = some ⟨4, some "other", false, []⟩
    ∧ (AllocationBlock.mk 4 (some "other") false []).hostAffinity ≠ some "me"
    ∧ affHas "me" 4 [("me", 4)] = true
    ∧ claimExistsHandler 4 "me" ⟨[(4, ⟨4, some "other", false, []⟩)], [("me", 4)]⟩
        = (some (.affinityClaimed ⟨4, some "other", false, []⟩),
           { Datastore.mk [(4, ⟨4, some "other", false, []⟩)] [("me", 4)] with
             affinities := affRemove "me" 4 [("me", 4)] })
    ∧ claimExistsHandler 4 "me" ⟨[(4, ⟨4, some "other", false, []⟩)], []⟩
        = (some .resourceDoesNotExist, ⟨[(4, ⟨4, some "other", false, []⟩)], []⟩) := by
  refine ⟨by decide, by decide, by decide, ?_, ?_⟩
  · exact (claimExistsHandler_foreign _ 4 "me" ⟨4, some "other", false, []⟩
      (by decide) (by decide)).1 (by decide)
  · exact (claimExistsHandler_foreign _ 4 "me" ⟨4, some "other", false, []⟩
      (by decide) (by decide)).2 (by decide)

/-- Final affinity-record cleanup of a successful release iteration:
the store loses the (host, b.CIDR) Affinity record (a not-found delete
is tolerated, so an absent record leaves the store unchanged, which the
filter semantics of `affRemove` also captures) and the result is nil. -/
theorem releaseDeleteAffinity_spec (h : String) (b : AllocationBlock) (s : Datastore) :
    releaseDeleteAffinity h b s =
      (none, { s with affinities := affRemove h b.cidr s.affinities }) := by
  by_cases haff : affHas h b.cidr s.affinities
  · simp [releaseDeleteAffinity, backendDeleteAffinity, haff]
  · have hf : affHas h b.cidr s.affinities = false := by simpa using haff
    simp [releaseDeleteAffinity, backendDeleteAffinity, haff,
      affRemove_of_not_has _ _ _ hf]

/-- Deterministic success of one `releaseBlockAffinity` iteration: with
the Block present, its affinity absent or equal to the releasing host,
and no injected CAS conflict, the call returns nil on its first
iteration, deleting the Block record when the block is empty and
clearing its affinity otherwise, and deleting the paired Affinity
record. -/
theorem release_det_spec (s : Datastore) (c : Nat) (h : String) (b : AllocationBlock)
    (n : Nat) (hb : aget c s.blocks = some b)
    (hown : b.hostAffinity = none ∨ b.hostAffinity = some h)
    (hc : b.cidr = c) :
    releaseBlockAffinity h c (n + 1) [] s
      = (none, { blocks :=
                   (if blockEmpty b then aremove c s.blocks
                    else aset c { b with hostAffinity := none } s.blocks),
                 affinities := affRemove h c s.affinities }) := by
  have hguard : ¬(b.hostAffinity ≠ none ∧ b.hostAffinity ≠ some h) := by
    rcases hown with h1 | h1 <;> simp [h1]
  by_cases hemp : blockEmpty b
  · simp [releaseBlockAffinity, backendGetBlock, hb, hguard, hemp, hc,
      backendDeleteBlock, releaseDeleteAffinity_spec]
  · simp [releaseBlockAffinity, backendGetBlock, hb, hguard, hemp, hc,
      backendUpdateBlock, releaseDeleteAffinity_spec]

/-- C7: releasing a block whose stored affinity names a different host
fails immediately with the affinity-claimed error carrying the block's
data, returning the datastore unchanged (no Delete and no Update of the
Block record or of any Affinity record), whatever the remaining fuel and
whatever CAS outcomes the environment would supply. -/
theorem releaseBlockAffinity_foreign_host (s : Datastore) (c : Nat) (h1 h2 : String)
    (b : AllocationBlock) (n : Nat) (sched : List Bool)
    (hb : aget c s.blocks = some b) (hown : b.hostAffinity = some h1)
    (hne : h1 ≠ h2) :
    releaseBlockAffinity h2 c (n + 1) sched s = (some (.affinityClaimed b), s) := by
  have hguard : b.hostAffinity ≠ none ∧ b.hostAffinity ≠ some h2 := by
    constructor <;> simp [hown, hne]
  simp [releaseBlockAffinity, backendGetBlock, hb, hguard]

/-- Witness for C7 at concrete inputs: block 5 affined to "hostA",
released by "hostB" with fuel 3. -/
theorem releaseBlockAffinity_foreign_host_witness :
    aget 5 (Datastore.mk [(5, ⟨5, some "hostA", false, []⟩)] [("hostA", 5)]).blocks
      = some ⟨5, some "hostA", false, []⟩
    ∧ (AllocationBlock.mk 5 (some "hostA") false []).hostAffinity = some "hostA"
    ∧ "hostA" ≠ "hostB"
    ∧ releaseBlockAffinity "hostB" 5 3 []
        ⟨[(5, ⟨5, some "hostA", false, []⟩)], [("hostA", 5)]⟩
        = (some (.affinityClaimed ⟨5, some "hostA", false, []⟩),
           ⟨[(5, ⟨5, some "hostA", false, []⟩)], [("hostA", 5)]⟩) := by
  refine ⟨by decide, by decide, by decide, ?_⟩
  exact releaseBlockAffinity_foreign_host _ 5 "hostA" "hostB"
    ⟨5, some "hostA", false, []⟩ 2 [] (by decide) (by decide) (by decide)

/-- C8: with the Block present and affined to the releasing host and
every store call succeeding deterministically (no injected CAS
conflict), `releaseBlockAffinity` succeeds on its first loop iteration —
the result does not depend on the remaining fuel — leaving the Block
record deleted when the block is empty, or present with its affinity
cleared by the compare-and-swap Update when non-empty, and in both cases
the (host, cidr) Affinity record deleted. -/
theorem releaseBlockAffinity_convergence (s : Datastore) (c : Nat) (h : String)
    (b : AllocationBlock) (n : Nat) (hb : aget c s.blocks = some b)
    (hown : b.hostAffinity = some h) (hc : b.cidr = c) :
    releaseBlockAffinity h c (n + 1) [] s
      = (none, { blocks :=
                   (if blockEmpty b then aremove c s.blocks
                    else aset c { b with hostAffinity := none } s.blocks),
                 affinities := affRemove h c s.affinities })
    ∧ releaseBlockAffinity h c (n + 1) [] s = releaseBlockAffinity h c 1 [] s := by
  refine ⟨release_det_spec s c h b n hb (Or.inr hown) hc, ?_⟩
  rw [release_det_spec s c h b n hb (Or.inr hown) hc,
    release_det_spec s c h b 0 hb (Or.inr hown) hc]

/-- Witness for C8 at concrete inputs: non-empty block 7 affined to
"calico", released by "calico" with fuel 4. -/
theorem releaseBlockAffinity_convergence_witness :
    aget 7 (Datastore.mk [(7, ⟨7, some "calico", true, [9]⟩)] [("calico", 7)]).blocks
      = some ⟨7, some "calico", true, [9]⟩
    ∧ (AllocationBlock.mk 7 (some "calico") true [9]).hostAffinity = some "calico"
    ∧ (AllocationBlock.mk 7 (some "calico") true [9]).cidr = 7
    ∧ releaseBlockAffinity "calico" 7 4 []
        ⟨[(7, ⟨7, some "calico", true, [9]⟩)], [("calico", 7)]⟩
        = (none, { blocks :=
                     (if blockEmpty ⟨7, some "calico", true, [9]⟩ then
                       aremove 7 [(7, ⟨7, some "calico", true, [9]⟩)]
                      else aset 7 { AllocationBlock.mk 7 (some "calico") true [9] with
                        hostAffinity := none } [(7, ⟨7, some "calico", true, [9]⟩)]),
                   affinities := affRemove "calico" 7 [("calico", 7)] })
    ∧ releaseBlockAffinity "calico" 7 4 []
        ⟨[(7, ⟨7, some "calico", true, [9]⟩)], [("calico", 7)]⟩
      = releaseBlockAffinity "calico" 7 1 []
        ⟨[(7, ⟨7, some "calico", true, [9]⟩)], [("calico", 7)]⟩ := by
  have hm := releaseBlockAffinity_convergence
    ⟨[(7, ⟨7, some "calico", true, [9]⟩)], [("calico", 7)]⟩ 7 "calico"
    ⟨7, some "calico", true, [9]⟩ 3 (by decide) (by decide) (by decide)
  exact ⟨by decide, by decide, by decide, hm.1, hm.2⟩

/-- C9: an update-conflict outcome of the compare-and-swap Update makes
`releaseBlockAffinity` re-read and retry the whole loop body: with a
single injected conflict the call equals a fresh run with one unit less
fuel and succeeds on that second iteration (a retry bound of 2 already
suffices), while a conflict on every iteration exhausts any fuel `m` and
fails with the distinguished max-retries error, leaving the datastore
unchanged. -/
theorem releaseBlockAffinity_conflict_retry (s : Datastore) (c : Nat) (h : String)
    (b : AllocationBlock) (n : Nat) (hb : aget c s.blocks = some b)
    (hown : b.hostAffinity = some h) (hnemp : blockEmpty b = false)
    (hc : b.cidr = c) :
    (releaseBlockAffinity h c (n + 2) [true] s = releaseBlockAffinity h c (n + 1) [] s
     ∧ (releaseBlockAffinity h c (n + 1) [] s).1 = none
     ∧ (releaseBlockAffinity h c 2 [true] s).1 = none)
    ∧ ∀ m, releaseBlockAffinity h c m (List.replicate m true) s
        = (some .maxRetriesHit, s) := by
  have hguard : ¬(b.hostAffinity ≠ none ∧ b.hostAffinity ≠ some h) := by
    simp [hown]
  have hstep : ∀ k sched, releaseBlockAffinity h c (k + 1) (true :: sched) s
      = releaseBlockAffinity h c k sched s := by
    intro k sched
    simp [releaseBlockAffinity, backendGetBlock, hb, hguard, hnemp]
  have hsucc : (releaseBlockAffinity h c (n + 1) [] s).1 = none := by
    rw [release_det_spec s c h b n hb (Or.inr hown) hc]
  refine ⟨⟨hstep (n + 1) [], hsucc, ?_⟩, ?_⟩
  · rw [hstep 1 []]
    rw [release_det_spec s c h b 0 hb (Or.inr hown) hc]
  · intro m
    induction m with
    | zero => simp [releaseBlockAffinity]
    | succ k ih => rw [List.replicate_succ, hstep k, ih]

/-- Witness for C9 at concrete inputs: non-empty block 9 affined to
"calico"; one injected conflict with fuel 2 still succeeds, and
conflicts on every iteration with fuel 3 fail with the max-retries
error. -/
theorem releaseBlockAffinity_conflict_retry_witness :
    aget 9 (Datastore.mk [(9, ⟨9, some "calico", false, [1]⟩)] [("calico", 9)]).blocks
      = some ⟨9, some "calico", false, [1]⟩
    ∧ (AllocationBlock.mk 9 (some "calico") false [1]).hostAffinity = some "calico"
    ∧ blockEmpty ⟨9, some "calico", false, [1]⟩ = false
    ∧ (AllocationBlock.mk 9 (some "calico") false [1]).cidr = 9
    ∧ (releaseBlockAffinity "calico" 9 2 [true]
        ⟨[(9, ⟨9, some "calico", false, [1]⟩)], [("calico", 9)]⟩).1 = none
    ∧ releaseBlockAffinity "calico" 9 3 (List.replicate 3 true)
        ⟨[(9, ⟨9, some "calico", false, [1]⟩)], [("calico", 9)]⟩
        = (some .maxRetriesHit,
           ⟨[(9, ⟨9, some "calico", false, [1]⟩)], [("calico", 9)]⟩) := by
  have hm := releaseBlockAffinity_conflict_retry
    ⟨[(9, ⟨9, some "calico", false, [1]⟩)], [("calico", 9)]⟩ 9 "calico"
    ⟨9, some "calico", false, [1]⟩ 0 (by decide) (by decide) (by decide) (by decide)
  exact ⟨by decide, by decide, by decide, by decide, hm.1.2.2, hm.2 3⟩

/-- C10: releasing a block whose stored affinity is absent (nil) never
fails with the affinity-claimed error for any host: the call proceeds as
if the host held the affinity — deleting the Block record when the block
is empty, otherwise re-writing it with its (already absent) affinity
cleared via the compare-and-swap Update — and then deletes the Affinity
record keyed (host, cidr), returning nil. -/
theorem releaseBlockAffinity_nil_affinity (s : Datastore) (c : Nat) (h : String)
    (b : AllocationBlock) (n : Nat) (hb : aget c s.blocks = some b)
    (hown : b.hostAffinity = none) (hc : b.cidr = c) :
    releaseBlockAffinity h c (n + 1) [] s
      = (none, { blocks :=
                   (if blockEmpty b then aremove c s.blocks
                    else aset c { b with hostAffinity := none } s.blocks),
                 affinities := affRemove h c s.affinities })
    ∧ (releaseBlockAffinity h c (n + 1) [] s).1 ≠ some (.affinityClaimed b) := by
  refine ⟨release_det_spec s c h b n hb (Or.inl hown) hc, ?_⟩
  rw [release_det_spec s c h b n hb (Or.inl hown) hc]
  simp

/-- Witness for C10 at concrete inputs: empty block 3 with no affinity,
released by "h1" with fuel 2. -/
theorem releaseBlockAffinity_nil_affinity_witness :
    aget 3 (Datastore.mk [(3, ⟨3, none, false, []⟩)] [("h1", 3)]).blocks
      = some ⟨3, none, false, []⟩
    ∧ (AllocationBlock.mk 3 none false []).hostAffinity = none
    ∧ (AllocationBlock.mk 3 none false []).cidr = 3
    ∧ releaseBlockAffinity "h1" 3 2 [] ⟨[(3, ⟨3, none, false, []⟩)], [("h1", 3)]⟩
        = (none, { blocks :=
                     (if blockEmpty ⟨3, none, false, []⟩ then
                       aremove 3 [(3, ⟨3, none, false, []⟩)]
                      else aset 3 { AllocationBlock.mk 3 none false [] with
                        hostAffinity := none } [(3, ⟨3, none, false, []⟩)]),
                   affinities := affRemove "h1" 3 [("h1", 3)] })
    ∧ (releaseBlockAffinity "h1" 3 2 []
        ⟨[(3, ⟨3, none, false, []⟩)], [("h1", 3)]⟩).1
        ≠ some (.affinityClaimed ⟨3, none, false, []⟩) := by
  have hm := releaseBlockAffinity_nil_affinity
    ⟨[(3, ⟨3, none, false, []⟩)], [("h1", 3)]⟩ 3 "h1"
    ⟨3, none, false, []⟩ 1 (by decide) (by decide) (by decide)
  exact ⟨by decide, by decide, by decide, hm.1, hm.2⟩

/-- Program counter of one in-flight call against the shared datastore.
A `claimNewAffineBlock` call starts in `scanning` with its precomputed
candidate list (the generators read no store state, so their yields are
fixed up front); a standalone `claimBlockAffinity(c, host, cfg)` call
starts at `claimStart c`.  Each constructor sits immediately before one
atomic store operation of the source: the scan's Get (lines 110-111),
the best-effort Affinity Create (line 135), the Block Create (line 147),
the re-read Get (line 152) and the cleanup Delete (line 169).  `done`
carries the Go result pair (returned CIDR, error). -/
inductive Phase where
  | scanning (cands : List Nat)
  | claimStart (c : Nat)
  | claimCreateBlock (c : Nat)
  | claimReRead (c : Nat)
  | claimCleanup (c : Nat) (b : AllocationBlock)
  | done (res : Option Nat × Option IpamError)
deriving DecidableEq, Repr

/-- One concurrently running call: its host argument, the config's
strict-affinity flag and its current program counter. -/
structure Proc where
  host : String
  strict : Bool
  phase : Phase
deriving DecidableEq, Repr

/-- One atomic step of a process against the shared datastore: exactly
one store operation (or a pure transition), after which the scheduler
may run any other process.  The branches follow the source lines quoted
at each `Phase` constructor; every multi-step sequence (the scan's
get-then-create, the claim's create-then-reread) can be interleaved
with other processes between steps. -/
def stepProc (s : Datastore) (p : Proc) : Datastore × Proc :=
  match p.phase with
  | .scanning [] => (s, { p with phase := .done (none, some .noFreeBlocks) })
  | .scanning (c :: rest) =>
    match aget c s.blocks with
    | some _ => (s, { p with phase := .scanning rest })
    | none => (s, { p with phase := .claimStart c })
  | .claimStart c =>
    (match backendCreateAffinity p.host c s with
     | .ok s2 => s2
     | .error _ => s,
     { p with phase := .claimCreateBlock c })
  | .claimCreateBlock c =>
    match backendCreateBlock c ⟨c, some p.host, p.strict, []⟩ s with
    | .ok s2 => (s2, { p with phase := .done (some c, none) })
    | .error _ => (s, { p with phase := .claimReRead c })
  | .claimReRead c =>
    match aget c s.blocks with
    | none => (s, { p with phase := .done (some c, some .resourceDoesNotExist) })
    | some b =>
      if b.hostAffinity = some p.host then
        (s, { p with phase := .done (some c, none) })
      else (s, { p with phase := .claimCleanup c b })
  | .claimCleanup c b =>
    match backendDeleteAffinity p.host b.cidr s with
    | .ok s2 => (s2, { p with phase := .done (some c, some (.affinityClaimed b)) })
    | .error e => (s, { p with phase := .done (some c, some e) })
  | .done _ => (s, p)

/-- Interleaved execution of a pool of processes: the schedule names, at
each step, the index of the process that performs its next atomic store
operation (out-of-range indices and finished processes are no-ops). -/
def runSys : Datastore → List Proc → List Nat → Datastore × List Proc
  | s, ps, [] => (s, ps)
  | s, ps, i :: rest =>
    match ps[i]? with
    | none => runSys s ps rest
    | some p => runSys (stepProc s p).1 (ps.set i (stepProc s p).2) rest

/-- A call has returned success for block CIDR `c` (the Go pair
(subnet, nil)). -/
@[reducible] def doneSuccess (p : Proc) (c : Nat) : Prop :=
  p.phase = Phase.done (some c, none)

/-- A process that has not started executing yet: at the head of the
scan loop or at the head of the claim sub-protocol. -/
def isStartPhase (p : Proc) : Bool :=
  match p.phase with
  | .scanning _ => true
  | .claimStart _ => true
  | _ => false

/-- Block ownership invariant: every call that has returned success for
CIDR `c` did so with the stored Block record for `c` carrying that
call's host as its affinity. -/
def OwnerInv (s : Datastore) (ps : List Proc) : Prop :=
  ∀ p ∈ ps, ∀ c, doneSuccess p c →
    ∃ b, aget c s.blocks = some b ∧ b.hostAffinity = some p.host

/-- A successful Affinity Create only touches the affinity records. -/
theorem backendCreateAffinity_ok_blocks (h : String) (c : Nat) (s s2 : Datastore)
    (hok : backendCreateAffinity h c s = .ok s2) : s2.blocks = s.blocks := by
  by_cases haff : affHas h c s.affinities
  · simp [backendCreateAffinity, haff] at hok
  · simp [backendCreateAffinity, haff] at hok
    rw [← hok]

/-- A successful Affinity Delete only touches the affinity records. -/
theorem backendDeleteAffinity_ok_blocks (h : String) (c : Nat) (s s2 : Datastore)
    (hok : backendDeleteAffinity h c s = .ok s2) : s2.blocks = s.blocks := by
  by_cases haff : affHas h c s.affinities
  · simp [backendDeleteAffinity, haff] at hok
    rw [← hok]
  · simp [backendDeleteAffinity, haff] at hok

/-- A successful Block Create certifies the key was free and prepends
the new record. -/
theorem backendCreateBlock_ok (c : Nat) (b : AllocationBlock) (s s2 : Datastore)
    (hok : backendCreateBlock c b s = .ok s2) :
    aget c s.blocks = none ∧ s2 = { s with blocks := (c, b) :: s.blocks } := by
  cases haget : aget c s.blocks with
  | some w => simp [backendCreateBlock, haget] at hok
  | none =>
    simp [backendCreateBlock, haget] at hok
    exact ⟨rfl, hok.symm⟩

/-- Block records persist across every step of every process: the claim
protocol only ever inserts a Block record at a key that has none, and
never mutates or deletes one. -/
theorem stepProc_blocks_mono (s : Datastore) (p : Proc) (c : Nat)
    (b : AllocationBlock) (hb : aget c s.blocks = some b) :
    aget c ((stepProc s p).1).blocks = some b := by
  cases hp : p.phase with
  | scanning cands =>
    cases cands with
    | nil => simpa [stepProc, hp] using hb
    | cons c0 rest =>
      cases haget : aget c0 s.blocks <;> simpa [stepProc, hp, haget] using hb
  | claimStart c0 =>
    cases hca : backendCreateAffinity p.host c0 s with
    | ok s2 =>
      simpa [stepProc, hp, hca, backendCreateAffinity_ok_blocks p.host c0 s s2 hca]
        using hb
    | error e => simpa [stepProc, hp, hca] using hb
  | claimCreateBlock c0 =>
    cases hcb : backendCreateBlock c0 ⟨c0, some p.host, p.strict, []⟩ s with
    | ok s2 =>
      obtain ⟨hfree, hs2⟩ := backendCreateBlock_ok c0 _ s s2 hcb
      have hne : c0 ≠ c := by
        intro hcc
        rw [hcc] at hfree
        rw [hfree] at hb
        cases hb
      rw [stepProc, hp]
      simp only [hcb, hs2]
      rw [aget_cons_ne c c0 _ _ hne]
      exact hb
    | error e => simpa [stepProc, hp, hcb] using hb
  | claimReRead c0 =>
    cases haget : aget c0 s.blocks with
    | none => simpa [stepProc, hp, haget] using hb
    | some b0 =>
      by_cases hbh : b0.hostAffinity = some p.host <;>
        simpa [stepProc, hp, haget, hbh] using hb
  | claimCleanup c0 b0 =>
    cases hcd : backendDeleteAffinity p.host b0.cidr s with
    | ok s2 =>
      simpa [stepProc, hp, hcd, backendDeleteAffinity_ok_blocks p.host b0.cidr s s2 hcd]
        using hb
    | error e => simpa [stepProc, hp, hcd] using hb
  | done r => simpa [stepProc, hp] using hb

/-- If a step leaves a process in a success state for CIDR `c`, the
resulting store has a Block record at `c` affined to that process's
host: a fresh success comes either from the winning Block Create (which
wrote exactly that record) or from the re-read finding this host's
affinity already present, and an old success is preserved by block
persistence. -/
theorem stepProc_done_success (s : Datastore) (p : Proc) (c : Nat)
    (hds : doneSuccess (stepProc s p).2 c)
    (hp : ∀ c2, doneSuccess p c2 →
      ∃ b, aget c2 s.blocks = some b ∧ b.hostAffinity = some p.host) :
    ∃ b, aget c ((stepProc s p).1).blocks = some b
      ∧ b.hostAffinity = some ((stepProc s p).2).host := by
  cases hph : p.phase with
  | scanning cands =>
    cases cands with
    | nil => simp [stepProc, hph, doneSuccess] at hds
    | cons c0 rest =>
      cases haget : aget c0 s.blocks <;>
        simp [stepProc, hph, haget, doneSuccess] at hds
  | claimStart c0 =>
    simp [stepProc, hph, doneSuccess] at hds
  | claimCreateBlock c0 =>
    cases hcb : backendCreateBlock c0 ⟨c0, some p.host, p.strict, []⟩ s with
    | ok s2 =>
      obtain ⟨hfree, hs2⟩ := backendCreateBlock_ok c0 _ s s2 hcb
      simp [stepProc, hph, hcb, doneSuccess] at hds ⊢
      refine ⟨⟨c0, some p.host, p.strict, []⟩, ?_, rfl⟩
      rw [hs2]
      rw [← hds]
      exact aget_cons_self c0 _ s.blocks
    | error e => simp [stepProc, hph, hcb, doneSuccess] at hds
  | claimReRead c0 =>
    cases haget : aget c0 s.blocks with
    | none => simp [stepProc, hph, haget, doneSuccess] at hds
    | some b0 =>
      by_cases hbh : b0.hostAffinity = some p.host
      · simp [stepProc, hph, haget, hbh, doneSuccess] at hds ⊢
        refine ⟨b0, ?_, hbh⟩
        rw [← hds]
        exact haget
      · simp [stepProc, hph, haget, hbh, doneSuccess] at hds
  | claimCleanup c0 b0 =>
    cases hcd : backendDeleteAffinity p.host b0.cidr s with
    | ok s2 => simp [stepProc, hph, hcd, doneSuccess] at hds
    | error e => simp [stepProc, hph, hcd, doneSuccess] at hds
  | done r =>
    have hds2 : doneSuccess p c := by
      simpa [stepProc, hph, doneSuccess] using hds
    obtain ⟨b, hb, hbh⟩ := hp c hds2
    refine ⟨b, ?_, ?_⟩
    · simpa [stepProc, hph] using hb
    · simpa [stepProc, hph] using hbh

/-- The ownership invariant is preserved by every interleaved execution:
processes other than the stepped one keep their certificates through
block persistence, and the stepped process's fresh success is certified
by `stepProc_done_success`. -/
theorem runSys_inv (sched : List Nat) :
    ∀ (s : Datastore) (ps : List Proc), OwnerInv s ps →
      OwnerInv (runSys s ps sched).1 (runSys s ps sched).2 := by
  induction sched with
  | nil =>
    intro s ps h
    simpa [runSys] using h
  | cons i rest ih =>
    intro s ps hInv
    cases hget : ps[i]? with
    | none => simpa [runSys, hget] using ih s ps hInv
    | some p =>
      have hmem : p ∈ ps := List.getElem?_mem hget
      have hInv2 : OwnerInv (stepProc s p).1 (ps.set i (stepProc s p).2) := by
        intro q hq c hdq
        rcases List.mem_or_eq_of_mem_set hq with hq2 | hq2
        · obtain ⟨b, hb, hbh⟩ := hInv q hq2 c hdq
          exact ⟨b, stepProc_blocks_mono s p c b hb, hbh⟩
        · subst hq2
          exact stepProc_done_success s p c hdq (fun c2 hd2 => hInv p hmem c2 hd2)
      simpa [runSys, hget] using ih _ _ hInv2

/-- C2: mutual exclusion of block ownership.  For every initial store,
every pool of concurrent `claimNewAffineBlock` / `claimBlockAffinity`
calls (each at its start state) and every interleaving of their atomic
store operations, no two calls both return success for the same block
CIDR with different hosts: coordination happens only through the store's
atomic create-if-absent, whose single winner per CIDR is the recorded
affinity owner every other same-CIDR success must match. -/
theorem no_double_ownership (s0 : Datastore) (ps : List Proc) (sched : List Nat)
    (hinit : ∀ p ∈ ps, isStartPhase p = true)
    (p q : Proc) (c : Nat)
    (hp : p ∈ (runSys s0 ps sched).2) (hq : q ∈ (runSys s0 ps sched).2)
    (hpc : doneSuccess p c) (hqc : doneSuccess q c) :
    p.host = q.host := by
  have hInv0 : OwnerInv s0 ps := by
    intro r hr c2 hd
    have hstart := hinit r hr
    rw [doneSuccess] at hd
    simp [isStartPhase, hd] at hstart
  have hfin := runSys_inv sched s0 ps hInv0
  obtain ⟨b1, hb1, hh1⟩ := hfin p hp c hpc
  obtain ⟨b2, hb2, hh2⟩ := hfin q hq c hqc
  rw [hb1] at hb2
  injection hb2 with hbb
  subst hbb
  have hsome := hh1.symm.trans hh2
  injection hsome

/-- Initial processes for the C2 witness run: two calls with the same
host "alice", one a standalone affinity claim for block 0 and one a scan
of the single candidate block 0. -/
def wProcA : Proc := { host := "alice", strict := false, phase := .claimStart 0 }

/-- Second initial process for the C2 witness run. -/
def wProcB : Proc := { host := "alice", strict := true, phase := .scanning [0] }

/-- Witness for C2 at a concrete interleaving: B's scan Get finds block
0 free, then A claims it completely, then B's Block Create loses the
race, re-reads, finds its own host's affinity and also returns success —
both calls succeed for CIDR 0 and the theorem forces equal hosts. -/
theorem no_double_ownership_witness :
    (∀ r ∈ [wProcA, wProcB], isStartPhase r = true)
    ∧ Proc.mk "alice" false (.done (some 0, none))
        ∈ (runSys ⟨[], []⟩ [wProcA, wProcB] [1, 0, 0, 1, 1, 1]).2
    ∧ Proc.mk "alice" true (.done (some 0, none))
        ∈ (runSys ⟨[], []⟩ [wProcA, wProcB] [1, 0, 0, 1, 1, 1]).2
    ∧ doneSuccess (Proc.mk "alice" false (.done (some 0, none))) 0
    ∧ doneSuccess (Proc.mk "alice" true (.done (some 0, none))) 0
    ∧ (Proc.mk "alice" false (.done (some 0, none))).host
        = (Proc.mk "alice" true (.done (some 0, none))).host := by
  refine ⟨by decide, by decide, by decide, by decide, by decide, ?_⟩
  exact no_double_ownership ⟨[], []⟩ [wProcA, wProcB] [1, 0, 0, 1, 1, 1]
    (by decide) (Proc.mk "alice" false (.done (some 0, none)))
    (Proc.mk "alice" true (.done (some 0, none))) 0
    (by decide) (by decide) (by decide) (by decide)
